import Mathlib

/-!
Verification development for the vLLM test-infrastructure process-supervision
core (`vllm_test_infra`): a shallow embedding of the Log Sink
(`logging.py`), the Process Supervisor (`process.py`), the Server Lifecycle
Controller (`server.py`) and the argument/variant parsing helpers
(`utils.py`), together with theorems about the embedded operations.

Modelling conventions:
  - Python strings are Lean `String`s; where line- or character-level
    reasoning is needed we work on `List Char` (`String.data`).
  - The Python regular-expression engine is abstracted as a matcher
    `m : String → String → Bool` taking the pattern text and the line;
    `re.IGNORECASE` literal-pattern search is instantiated concretely by
    `ciSubstringMatch` where a concrete matcher is needed.
  - File contents are `Option String` (`none` models a file that does not
    exist yet).
  - OS interaction (signal delivery, bounded waits, liveness polls) is an
    oracle recorded per managed process (`ProcBehavior`), so that each
    exception path of the source is a distinguishable branch.
-/

namespace VTI

/-! ## Character-level utilities (Python `str.strip`, `str.split`) -/

/-- The whitespace characters recognised by Python `str.strip()` (ASCII part). -/
def isWsChar (c : Char) : Bool :=
  c = ' ' || c = '\t' || c = '\n' || c = '\r' || c = '\x0b' || c = '\x0c'

/-- Drop leading whitespace, as in the left half of Python `str.strip()`. -/
def dropLeadWs (cs : List Char) : List Char :=
  cs.dropWhile isWsChar

/-- Drop trailing whitespace, as in the right half of Python `str.strip()`. -/
def dropTrailWs (cs : List Char) : List Char :=
  (cs.reverse.dropWhile isWsChar).reverse

/-- Python `str.strip()` on a character list. -/
def pyStrip (cs : List Char) : List Char :=
  dropTrailWs (dropLeadWs cs)

/-- Python `str.strip()` on a `String`. -/
def pyStripS (s : String) : String :=
  String.mk (pyStrip s.data)

/-- Python line iteration (`for line in f` / `f.readlines()`): split at
newline characters, each line keeping its trailing newline; a final chunk
without a newline is kept as-is; the empty text has no lines. -/
def pyLinesAux (acc : List Char) : List Char → List (List Char)
  | [] => if acc = [] then [] else [acc.reverse]
  | '\n' :: rest => (acc.reverse ++ ['\n']) :: pyLinesAux [] rest
  | c :: rest => pyLinesAux (c :: acc) rest

/-- The lines of a text, Python `readlines` style. -/
def pyLines (s : String) : List String :=
  (pyLinesAux [] s.data).map (fun cs => String.mk cs)

/-- Dropping the first `n` characters of a text, modelling `f.seek(n)` on a
text file before reading lines. -/
def strDrop (s : String) (n : Nat) : String :=
  String.mk (s.data.drop n)

/-! ## Log Sink (`logging.py`) -/

/-- Python slicing `l[-n:]`: for `n = 0` this is `l[0:]`, the whole list;
otherwise the last `n` elements (all of them when `n ≥ length`).
Embeds the `lines[-num_lines:]` expression of `LogManager.tail_file`. -/
def pySliceLast (l : List String) (n : Nat) : List String :=
  if n = 0 then l else l.drop (l.length - n)

/-- Embedding of `LogManager.tail_file` (logging.py lines 121-141): return the last
`num_lines` lines of the named log file joined into one string; the empty
string when the file does not exist. -/
def tail_file (file : Option String) (num_lines : Nat) : String :=
  match file with
  | none => ""
  | some content => String.join (pySliceLast (pyLines content) num_lines)

/-- Modelled from the spec wording only (for comparison with `tail_file`):
"the last `n` lines" of a line list, the empty list for `n = 0`. -/
def specLastLines (l : List String) (n : Nat) : List String :=
  l.drop (l.length - n)

/-- Inner loop of `LogManager.search_file_for_patterns`: try each pattern in
order against one line, returning `(pattern, line.strip())` for the first
pattern that matches. -/
def searchLine (m : String → String → Bool) (line : String) :
    List String → Option (String × String)
  | [] => none
  | p :: ps => if m p line then some (p, pyStripS line) else searchLine m line ps

/-- Outer loop of `LogManager.search_file_for_patterns`: scan the lines in
order and return the first per-line hit. -/
def searchLinesAux (m : String → String → Bool) (patterns : List String) :
    List String → Option (String × String)
  | [] => none
  | l :: ls =>
    match searchLine m l patterns with
    | some r => some r
    | none => searchLinesAux m patterns ls

/-- Embedding of `LogManager.search_file_for_patterns` (logging.py lines 171-202): seek to
`start_pos`, then scan each line against each pattern (the regex engine is
the abstract matcher `m`); a missing file is "no match", not an error. -/
def search_file_for_patterns (m : String → String → Bool) (patterns : List String)
    (file : Option String) (start_pos : Nat) : Option (String × String) :=
  match file with
  | none => none
  | some content => searchLinesAux m patterns (pyLines (strDrop content start_pos))

/-- Is `n` a prefix of `h` (character lists)? -/
def isPrefOf : List Char → List Char → Bool
  | [], _ => true
  | _ :: _, [] => false
  | a :: as, b :: bs => a = b && isPrefOf as bs

/-- Does `n` occur as a contiguous substring of the second list? -/
def containsSub (n : List Char) : List Char → Bool
  | [] => isPrefOf n []
  | c :: t => isPrefOf n (c :: t) || containsSub n t

/-- Case-insensitive literal substring search: the behaviour of
`re.compile(p, re.IGNORECASE).search(line)` for a pattern `p` with no regex
metacharacters.  Used to instantiate the abstract matcher on concrete inputs. -/
def ciSubstringMatch (p line : String) : Bool :=
  containsSub (p.data.map Char.toLower) (line.data.map Char.toLower)

/-! ## Process Supervisor (`process.py`): registry dictionary -/

/-- Python `dict` lookup on an insertion-ordered association list. -/
def dictLookup {α : Type} (reg : List (String × α)) (k : String) : Option α :=
  match reg with
  | [] => none
  | (k1, v) :: r => if k1 = k then some v else dictLookup r k

/-- Python `dict` assignment `d[k] = v`: replace in place, else append. -/
def dictInsert {α : Type} (reg : List (String × α)) (k : String) (v : α) :
    List (String × α) :=
  match reg with
  | [] => [(k, v)]
  | (k1, v1) :: r => if k1 = k then (k, v) :: r else (k1, v1) :: dictInsert r k v

/-- Python `del d[k]`. -/
def dictErase {α : Type} (reg : List (String × α)) (k : String) : List (String × α) :=
  reg.filter (fun kv => kv.1 ≠ k)

/-! ## `ProcessManager.run_background` and `is_running` -/

/-- State of the supervisor plus the part of the OS it can observe: the
name-to-pid registry (`self.processes`), the next pid the OS will hand out,
the set of pids whose `poll()` returns `None` (alive), and the ordered list
of all OS processes ever spawned. -/
structure SpawnState where
  registry : List (String × Nat)
  nextPid : Nat
  alive : List Nat
  spawned : List Nat
  deriving DecidableEq, Repr

/-- Embedding of `ProcessManager.run_background` (process.py lines 110-157): spawn a new
OS process unconditionally (`subprocess.Popen` in a new session) and register
it under `name`, overwriting any existing entry; environment merging and log
routing are elided.  Returns the new state and the new pid (the `Popen`
handle). -/
def run_background (s : SpawnState) (name : String) : SpawnState × Nat :=
  let pid := s.nextPid
  ({ registry := dictInsert s.registry name pid
     nextPid := pid + 1
     alive := pid :: s.alive
     spawned := s.spawned ++ [pid] }, pid)

/-- Embedding of `ProcessManager.is_running` (process.py lines 159-172): name registered
and its `poll()` returns `None`. -/
def is_running (s : SpawnState) (name : String) : Bool :=
  match dictLookup s.registry name with
  | none => false
  | some pid => s.alive.contains pid

/-! ## `ProcessManager.terminate` -/

/-- A signal kind sent to a process group. -/
inductive Sig where
  | int
  | term
  | kill
  deriving DecidableEq, Repr

/-- Outcome of one `terminate` call: normal return with its boolean result,
or an uncaught `subprocess.TimeoutExpired` escaping the function. -/
inductive TermResult where
  | ok : Bool → TermResult
  | timeoutExpired
  deriving DecidableEq, Repr

/-- Oracle for one managed process, fixing the outcome of each OS
interaction `terminate` can perform: whether `poll()` reports it already
exited at call time, whether each `os.killpg` raises
`ProcessLookupError`/`PermissionError` (process group already gone), and
whether each bounded `process.wait` returns within its bound (rather than
raising `subprocess.TimeoutExpired`). -/
structure ProcBehavior where
  pollDead : Bool
  intRaises : Bool
  exitsOnInt : Bool
  termRaises : Bool
  exitsOnTerm : Bool
  killRaises : Bool
  exitsOnKill : Bool
  deriving DecidableEq, Repr

/-- The SIGKILL stage of `terminate` (process.py lines 222-231): `killpg` then
`wait(timeout=2)` with only `ProcessLookupError`/`PermissionError` caught, then
`del self.processes[name]; return True`.  A `TimeoutExpired` from the final
wait is NOT caught and escapes before the registry delete. -/
def killStage (p : ProcBehavior) (tr : List (Sig × Nat))
    (reg : List (String × ProcBehavior)) (name : String) :
    TermResult × List (Sig × Nat) × List (String × ProcBehavior) :=
  if p.killRaises then (TermResult.ok true, tr, dictErase reg name)
  else if p.exitsOnKill then (TermResult.ok true, tr ++ [(Sig.kill, 2)], dictErase reg name)
  else (TermResult.timeoutExpired, tr ++ [(Sig.kill, 2)], reg)

/-- Embedding of `ProcessManager.terminate` (process.py lines 174-231).  Returns the call
outcome, the ordered list of signals actually delivered to the process group
(each with the wait bound in seconds that follows it), and the registry after
the call. -/
def terminate (reg : List (String × ProcBehavior)) (name : String) :
    TermResult × List (Sig × Nat) × List (String × ProcBehavior) :=
  match dictLookup reg name with
  | none => (TermResult.ok false, [], reg)
  | some p =>
    if p.pollDead then (TermResult.ok false, [], dictErase reg name)
    else
      let t1 : List (Sig × Nat) := if p.intRaises then [] else [(Sig.int, 5)]
      if p.exitsOnInt then (TermResult.ok true, t1, dictErase reg name)
      else
        if p.termRaises then killStage p t1 reg name
        else if p.exitsOnTerm then (TermResult.ok true, t1 ++ [(Sig.term, 3)], dictErase reg name)
        else killStage p (t1 ++ [(Sig.term, 3)]) reg name

/-! ## `utils.py`: parallelism-flag extraction and GPU count -/

/-- Match a literal at the head of the text, returning the remainder. -/
def dropLit : List Char → List Char → Option (List Char)
  | [], rest => some rest
  | l :: ls, c :: rest => if c = l then dropLit ls rest else none
  | _ :: _, [] => none

/-- Is `c` matched by the regex class `\s`? -/
def isReWs (c : Char) : Bool :=
  c = ' ' || c = '\t' || c = '\n' || c = '\r' || c = '\x0b' || c = '\x0c'

/-- Is `c` matched by the regex class `\d` (ASCII)? -/
def isReDigit (c : Char) : Bool :=
  '0' ≤ c && c ≤ '9'

/-- Numeric value of a digit run (the captured group `(\d+)` fed to `int`). -/
def digitsVal (cs : List Char) : Nat :=
  cs.foldl (fun acc c => acc * 10 + (c.toNat - '0'.toNat)) 0

/-- Match `\s+(\d+)` at the head of the text, returning the captured value. -/
def matchWsDigits (cs : List Char) : Option Nat :=
  match cs with
  | [] => none
  | c :: rest =>
    if isReWs c then
      let afterWs := rest.dropWhile isReWs
      let digits := afterWs.takeWhile isReDigit
      if digits = [] then none else some (digitsVal digits)
    else none

/-- Try the alternation `lit1|lit2|...` followed by `\s+(\d+)` at one
position, alternatives in order as in the source regex. -/
def matchAltAt (lits : List (List Char)) (cs : List Char) : Option Nat :=
  match lits with
  | [] => none
  | l :: ls =>
    match dropLit l cs with
    | some rest =>
      match matchWsDigits rest with
      | some n => some n
      | none => matchAltAt ls cs
    | none => matchAltAt ls cs

/-- Model of `re.search` for `(?:lit1|lit2)\s+(\d+)`: leftmost position wins. -/
def reSearchNum (lits : List (List Char)) : List Char → Option Nat
  | [] => none
  | c :: rest =>
    match matchAltAt lits (c :: rest) with
    | some n => some n
    | none => reSearchNum lits rest

/-- Embedding of `extract_tp_dp_from_args` (utils.py lines 157-179): search the argument
string for `(?:-tp|--tensor-parallel-size)\s+(\d+)` and for
`(?:-dp|--data-parallel-size)\s+(\d+)`. -/
def extract_tp_dp_from_args (args : String) : Option Nat × Option Nat :=
  (reSearchNum [("-tp").data, ("--tensor-parallel-size").data] args.data,
   reSearchNum [("-dp").data, ("--data-parallel-size").data] args.data)

/-- Embedding of `compute_gpu_count` (utils.py lines 182-194): `(tp_size or 1) *
(dp_size or 1)` with Python truthiness, so both `None` and `0` become `1`. -/
def compute_gpu_count (tp_size dp_size : Option Nat) : Nat :=
  (match tp_size with
   | none => 1
   | some n => if n = 0 then 1 else n) *
  (match dp_size with
   | none => 1
   | some n => if n = 0 then 1 else n)

/-! ## `server.py`: environment CSV parsing and `_build_command` -/

/-- Python `str.split(sep)` for a one-character separator. -/
def splitChar (sep : Char) : List Char → List (List Char)
  | [] => [[]]
  | c :: rest =>
    if c = sep then [] :: splitChar sep rest
    else
      match splitChar sep rest with
      | [] => [[c]]
      | s :: ss => (c :: s) :: ss

/-- Python `sep.join` for a one-character separator. -/
def joinChar (sep : Char) : List (List Char) → List Char
  | [] => []
  | [x] => x
  | x :: xs => x ++ sep :: joinChar sep xs

/-- Python `str.split(',')` on a character list. -/
def splitComma (cs : List Char) : List (List Char) :=
  splitChar ',' cs

/-- Python `','.join`, used to state round trips. -/
def joinComma (segs : List (List Char)) : List Char :=
  joinChar ',' segs

/-- Split at the first `'='`, Python `kv.split('=', 1)`; `none` when the
text has no `'='` (the `'=' in kv` test fails). -/
def pyBreakEq : List Char → Option (List Char × List Char)
  | [] => none
  | c :: rest =>
    if c = '=' then some ([], rest)
    else
      match pyBreakEq rest with
      | none => none
      | some (a, b) => some (c :: a, b)

/-- One segment of the environment CSV (server.py lines 96-100): strip it,
skip it when it has no `'='`, else split at the first `'='` and strip key and
value. -/
def processSeg (seg : List Char) : Option (String × String) :=
  match pyBreakEq (pyStrip seg) with
  | none => none
  | some (k, v) => some (String.mk (pyStrip k), String.mk (pyStrip v))

/-- The fold over CSV segments building `env_dict` (server.py lines 94-100). -/
def parseEnvSegs (acc : List (String × String)) :
    List (List Char) → List (String × String)
  | [] => acc
  | seg :: rest =>
    match processSeg seg with
    | none => parseEnvSegs acc rest
    | some (k, v) => parseEnvSegs (dictInsert acc k v) rest

/-- The environment-variable parsing block of `VLLMServer._build_command`
(server.py lines 93-100): empty CSV gives an empty dict, else fold over the
comma-separated segments. -/
def parse_env_csv (env_csv : String) : List (String × String) :=
  if env_csv = "" then [] else parseEnvSegs [] (splitComma env_csv.data)

/-- Embedding of `VLLMServer._build_command` (server.py lines 83-121).  `splitArgs`
abstracts `split_args_string` (shlex), `chgAvailable` abstracts
`is_chg_available()`, and `vllmCmd` abstracts `_get_vllm_command()` (a
filesystem probe).  Returns the command list and the environment dict. -/
def build_command (splitArgs : String → List String) (chgAvailable : Bool)
    (vllmCmd model host : String) (port : Nat) (args env_csv : String) :
    List String × List (String × String) :=
  let env_dict := parse_env_csv env_csv
  let pair := extract_tp_dp_from_args args
  let gpu_count := compute_gpu_count pair.1 pair.2
  let arg_list := if args = "" then [] else splitArgs args
  let base := [vllmCmd, "serve", model, "--host", host, "--port", toString port] ++ arg_list
  let command :=
    if gpu_count > 1 ∨ (gpu_count = 1 ∧ chgAvailable = true) then
      if chgAvailable then ["chg", "run", "-g", toString gpu_count, "--"] ++ base
      else base
    else base
  (command, env_dict)

/-! ## `VLLMServer.wait_for_ready` -/

/-- The fatal-error patterns `VLLMServer.ERROR_PATTERNS` (server.py lines
31-43), as the literal regex texts. -/
def ERROR_PATTERNS : List String :=
  ["AssertionError",
   "OutOfMemoryError",
   "CUDA out of memory",
   "RuntimeError.*CUDA",
   "Failed to allocate",
   "torch\\.cuda\\.OutOfMemoryError",
   "Cannot allocate memory",
   "killed by signal",
   "Segmentation fault",
   "chg:.*No GPUs available",
   "chg:.*GPU allocation failed"]

/-- What the polling loop can observe at one tick: process liveness
(`is_running`), the current server log file contents, and whether the health
and models endpoints return HTTP 200 (`false` covers both transport errors
and non-200 responses). -/
structure Obs where
  alive : Bool
  file : Option String
  health : Bool
  models : Bool

/-- Outcome of `wait_for_ready`: `ready` (returns `True`), `notReady`
(returns `False` on timeout), or one of the two `VLLMServerError` raises —
process death (with the last-100-lines log tail attached when a log manager
is configured) and a fatal log pattern (with the matched pattern, the
matching line, and the log tail). -/
inductive ReadyOutcome where
  | ready
  | notReady
  | died : Option String → ReadyOutcome
  | fatal : String → String → String → ReadyOutcome
  deriving DecidableEq, Repr

/-- The polling loop of `VLLMServer.wait_for_ready` (server.py lines
157-226) with `check_interval = 1` second: `remaining` is the unspent part
of the timeout budget, `k` the current tick (elapsed seconds), `lastCheck`
the `last_log_check` clock value (initially `0`); `st` models the
`time.time()` epoch value at `start_time`, so the wall clock at tick `k` is
`st + k`.  The log is scanned (from offset 0, against `ERROR_PATTERNS`)
only when a log manager is configured and at least 2 seconds of wall clock
passed since the last scan.  Returns the outcome and the tick at which the
loop returned. -/
def wfrGo (m : String → String → Bool) (hasLogMgr : Bool) (env : Nat → Obs)
    (st : Nat) : Nat → Nat → Nat → ReadyOutcome × Nat
  | 0, k, _ => (ReadyOutcome.notReady, k)
  | r + 1, k, lastCheck =>
    let o := env k
    if o.alive = false then
      (ReadyOutcome.died (if hasLogMgr then some (tail_file o.file 100) else none), k)
    else
      let now := st + k
      let doCheck := hasLogMgr && decide (2 ≤ now - lastCheck)
      let scan := if doCheck then search_file_for_patterns m ERROR_PATTERNS o.file 0 else none
      match scan with
      | some pl => (ReadyOutcome.fatal pl.1 pl.2 (tail_file o.file 100), k)
      | none =>
        if o.health then (ReadyOutcome.ready, k)
        else if o.models then (ReadyOutcome.ready, k)
        else wfrGo m hasLogMgr env st r (k + 1) (if doCheck then now else lastCheck)

/-- Embedding of `VLLMServer.wait_for_ready` with timeout in whole seconds and
`check_interval = 1`. -/
def wait_for_ready (m : String → String → Bool) (hasLogMgr : Bool)
    (env : Nat → Obs) (st timeout : Nat) : ReadyOutcome × Nat :=
  wfrGo m hasLogMgr env st timeout 0 0

/-- The `last_log_check` value after `t` benign loop iterations starting at
tick `k` with value `lc` (tracking the update in server.py lines 187-203). -/
def lcAfter (st : Nat) : Nat → Nat → Nat → Nat
  | 0, _, lc => lc
  | t + 1, k, lc => lcAfter st t (k + 1) (if 2 ≤ st + k - lc then st + k else lc)

/-- The `last_log_check` value at the start of tick `t` when every earlier
iteration continued, as a direct recurrence from tick 0. -/
def lcSeq (st : Nat) : Nat → Nat
  | 0 => 0
  | t + 1 => if 2 ≤ st + t - lcSeq st t then st + t else lcSeq st t

/-! ## `utils.py`: `parse_variants` -/

/-- Python `str.split('::')`: split at non-overlapping occurrences of the
two-character delimiter, scanning left to right. -/
def splitColons (acc : List Char) : List Char → List (List Char)
  | ':' :: ':' :: rest => acc.reverse :: splitColons [] rest
  | c :: rest => splitColons (c :: acc) rest
  | [] => [acc.reverse]

/-- Python `'::'.join`. -/
def joinColons : List (List Char) → List Char
  | [] => []
  | [x] => x
  | x :: xs => x ++ ':' :: ':' :: joinColons xs

/-- Python `str.split(';')`. -/
def splitSemicolon (cs : List Char) : List (List Char) :=
  splitChar ';' cs

/-- Python `rest.startswith('env:')`. -/
def startsWithEnv : List Char → Bool
  | 'e' :: 'n' :: 'v' :: ':' :: _ => true
  | _ => false

/-- The per-entry body of `parse_variants` (utils.py lines 121-152): strip
the entry, skip it when empty, split on `'::'` and dispatch on the number of
parts; with three or more parts the tail is rejoined with `'::'` and a
non-`env:` middle part is recombined into the argument string. -/
def parse_variant_entry (entry : List Char) : Option (String × String × String) :=
  let e := pyStrip entry
  if e = [] then none
  else
    match splitColons [] e with
    | [] => none
    | [p] => some (String.mk p, "", "")
    | [label, rest] =>
      if startsWithEnv rest then some (String.mk label, "", String.mk (rest.drop 4))
      else some (String.mk label, String.mk rest, "")
    | label :: middle :: parts2 =>
      let rest := joinColons parts2
      if startsWithEnv middle then
        some (String.mk label, String.mk rest, String.mk (middle.drop 4))
      else
        some (String.mk label, String.mk (middle ++ ':' :: ':' :: rest), "")

/-- Embedding of `parse_variants` (utils.py lines 102-154): empty spec gives no variants;
otherwise split on `';'` and keep the parsed non-empty entries. -/
def parse_variants (spec : String) : List (String × String × String) :=
  if spec = "" then []
  else (splitSemicolon spec.data).filterMap parse_variant_entry

/-! ## Helper lemmas -/

theorem dictLookup_insert {α : Type} (reg : List (String × α)) (k : String) (v : α) :
    dictLookup (dictInsert reg k v) k = some v := by
  induction reg with
  | nil => simp [dictInsert, dictLookup]
  | cons hd tl ih =>
    obtain ⟨k1, v1⟩ := hd
    by_cases hk : k1 = k
    · simp [dictInsert, dictLookup, hk]
    · simp [dictInsert, dictLookup, hk, ih]

theorem dictLookup_erase {α : Type} (reg : List (String × α)) (k : String) :
    dictLookup (dictErase reg k) k = none := by
  induction reg with
  | nil => rfl
  | cons hd tl ih =>
    obtain ⟨k1, v1⟩ := hd
    by_cases hk : k1 = k
    · simp [dictErase, hk] at ih ⊢
      exact ih
    · simp [dictErase, hk] at ih ⊢
      simp [dictLookup, hk, ih]

theorem searchLine_eq_none {m : String → String → Bool} {l : String}
    {ps : List String} (h : ∀ q ∈ ps, m q l = false) :
    searchLine m l ps = none := by
  induction ps with
  | nil => rfl
  | cons p ps ih =>
    have hp := h p (List.mem_cons_self p ps)
    simp only [searchLine, hp]
    simp only [Bool.false_eq_true, if_false]
    exact ih (fun q hq => h q (List.mem_cons_of_mem p hq))

theorem searchLine_first {m : String → String → Bool} {l : String}
    (ps1 : List String) (p : String) (ps2 : List String)
    (h1 : ∀ q ∈ ps1, m q l = false) (h2 : m p l = true) :
    searchLine m l (ps1 ++ p :: ps2) = some (p, pyStripS l) := by
  induction ps1 with
  | nil => simp [searchLine, h2]
  | cons q qs ih =>
    have hq := h1 q (List.mem_cons_self q qs)
    simp only [List.cons_append, searchLine, hq, Bool.false_eq_true, if_false]
    exact ih (fun r hr => h1 r (List.mem_cons_of_mem q hr))

theorem searchLinesAux_append {m : String → String → Bool} {ps : List String}
    {l1 : List String} (h : ∀ l ∈ l1, searchLine m l ps = none) (ls : List String) :
    searchLinesAux m ps (l1 ++ ls) = searchLinesAux m ps ls := by
  induction l1 with
  | nil => rfl
  | cons x xs ih =>
    have hx := h x (List.mem_cons_self x xs)
    simp only [List.cons_append, searchLinesAux, hx]
    exact ih (fun l hl => h l (List.mem_cons_of_mem x hl))

theorem searchLinesAux_eq_none {m : String → String → Bool} {ps : List String}
    {ls : List String} (h : ∀ l ∈ ls, searchLine m l ps = none) :
    searchLinesAux m ps ls = none := by
  have := searchLinesAux_append h []
  simpa using this

/-! ## C6: pattern search -/

/-- C6 (amended): `search_file_for_patterns` returns, for the first line
(counted from the seek offset) matching any pattern, the pair of the first
matching pattern and that line stripped of surrounding whitespace; it
returns `none` when no line matches and when the file does not exist. -/
theorem search_first_match :
    (∀ (m : String → String → Bool) (ps1 ps2 : List String) (p content : String)
       (off : Nat) (l1 l2 : List String) (lineK : String),
       pyLines (strDrop content off) = l1 ++ lineK :: l2 →
       (∀ l ∈ l1, ∀ q ∈ ps1 ++ p :: ps2, m q l = false) →
       (∀ q ∈ ps1, m q lineK = false) →
       m p lineK = true →
       search_file_for_patterns m (ps1 ++ p :: ps2) (some content) off =
         some (p, pyStripS lineK)) ∧
    (∀ (m : String → String → Bool) (patterns : List String) (content : String) (off : Nat),
       (∀ l ∈ pyLines (strDrop content off), ∀ q ∈ patterns, m q l = false) →
       search_file_for_patterns m patterns (some content) off = none) ∧
    (∀ (m : String → String → Bool) (patterns : List String) (off : Nat),
       search_file_for_patterns m patterns none off = none) := by
  refine ⟨?_, ?_, ?_⟩
  · intro m ps1 ps2 p content off l1 l2 lineK hsplit h1 h2 h3
    simp only [search_file_for_patterns, hsplit]
    rw [searchLinesAux_append (fun l hl => searchLine_eq_none (h1 l hl))]
    simp only [searchLinesAux, searchLine_first ps1 p ps2 h2 h3]
  · intro m patterns content off h
    simp only [search_file_for_patterns]
    exact searchLinesAux_eq_none (fun l hl => searchLine_eq_none (h l hl))
  · intro m patterns off
    rfl

/-- Witness for `search_first_match` at a concrete file and a concrete
(case-insensitive literal) matcher. -/
theorem search_first_match_witness :
    ciSubstringMatch ("boom") ("BOOM\n") = true ∧
    search_file_for_patterns ciSubstringMatch ["boom"] (some ("x\nBOOM\n")) 0 =
      some (("boom"), ("BOOM")) :=
  ⟨by decide,
   (search_first_match.1 ciSubstringMatch [] [] ("boom") ("x\nBOOM\n") 0
      [("x\n")] [] ("BOOM\n") (by decide) (by decide) (by decide) (by decide)).trans
     (by decide)⟩

/-- C6 counterexample: the pair returned is not exactly `(pattern, line_K)`
when the matching line carries surrounding whitespace — the code returns
`line.strip()` (logging.py line 198).  Here line 2 of the file is
`"  CUDA out of memory  \n"` but the returned line is the stripped
`"CUDA out of memory"`. -/
theorem search_stripped_line_cex :
    search_file_for_patterns ciSubstringMatch ["CUDA out of memory"]
        (some ("ok\n  CUDA out of memory  \n")) 0 =
      some (("CUDA out of memory"), ("CUDA out of memory")) ∧
    pyLines (strDrop ("ok\n  CUDA out of memory  \n") 0) =
      [("ok\n"), ("  CUDA out of memory  \n")] ∧
    (("CUDA out of memory") : String) ≠ ("  CUDA out of memory  \n") ∧
    (("CUDA out of memory") : String) ≠ ("  CUDA out of memory  ") := by
  refine ⟨by decide, by decide, by decide, by decide⟩

/-! ## C7: tail -/

/-- C7 (amended): for `n ≥ 1`, `tail_file` returns exactly the last `n`
lines in original order (all lines, none missing or duplicated, when the
file has at most `n` lines), and the empty string for a missing file. -/
theorem tail_file_last_lines :
    (∀ (content : String) (n : Nat), 1 ≤ n →
      tail_file (some content) n = String.join (specLastLines (pyLines content) n)) ∧
    (∀ (content : String) (n : Nat), 1 ≤ n → (pyLines content).length ≤ n →
      tail_file (some content) n = String.join (pyLines content)) ∧
    (∀ n : Nat, tail_file none n = "") := by
  refine ⟨?_, ?_, fun n => rfl⟩
  · intro content n hn
    simp only [tail_file, pySliceLast, specLastLines]
    rw [if_neg (by omega)]
  · intro content n hn hlen
    simp only [tail_file, pySliceLast]
    rw [if_neg (by omega), Nat.sub_eq_zero_of_le hlen, List.drop_zero]

/-- Witness for `tail_file_last_lines` on a concrete two-line file with
`n = 5` (fewer lines than `n`: all lines come back, in order). -/
theorem tail_file_last_lines_witness :
    (1 ≤ 5 ∧ tail_file (some ("a\nb\n")) 5 = ("a\nb\n")) ∧
    ((pyLines ("a\nb\n")).length ≤ 5 ∧ tail_file (some ("a\nb\n")) 5 =
      String.join (pyLines ("a\nb\n"))) :=
  ⟨⟨by decide, (tail_file_last_lines.1 ("a\nb\n") 5 (by decide)).trans (by decide)⟩,
   ⟨by decide, tail_file_last_lines.2.1 ("a\nb\n") 5 (by decide) (by decide)⟩⟩

/-- C7 counterexample: at `n = 0` the code computes `lines[-0:]`, which is
the whole file, not the last zero lines — `tail_file` on a one-line file
with `n = 0` returns the full line instead of the empty string. -/
theorem tail_file_zero_cex :
    tail_file (some ("hello\n")) 0 = ("hello\n") ∧
    String.join (specLastLines (pyLines ("hello\n")) 0) = "" ∧
    (("hello\n") : String) ≠ "" := by
  refine ⟨by decide, by decide, by decide⟩

/-! ## C1: registry exclusivity of `run_background` -/

/-- C1 counterexample: with name `"x"` registered and alive (pid 7),
`run_background` does not fail — it spawns a second OS process (pid 8, the
spawned list grows from `[7]` to `[7, 8]`) and silently overwrites the
registry entry; the source (process.py lines 110-157) performs no
registration check at all. -/
theorem run_background_second_spawn_cex :
    is_running ⟨[(("x"), 7)], 8, [7], [7]⟩ ("x") = true ∧
    run_background ⟨[(("x"), 7)], 8, [7], [7]⟩ ("x") =
      (⟨[(("x"), 8)], 9, [8, 7], [7, 8]⟩, 8) := by
  refine ⟨by decide, by decide⟩

/-- C1 (amended): when the name is already registered and alive,
`run_background` still starts a new OS process and replaces the registry
entry under that name with the new pid (the previous process is dropped
from the registry without being stopped). -/
theorem run_background_overwrites :
    ∀ (s : SpawnState) (name : String), is_running s name = true →
      (run_background s name).2 = s.nextPid ∧
      (run_background s name).1.spawned = s.spawned ++ [s.nextPid] ∧
      dictLookup (run_background s name).1.registry name = some s.nextPid := by
  intro s name _
  exact ⟨rfl, rfl, dictLookup_insert s.registry name s.nextPid⟩

/-- Witness for `run_background_overwrites` on the concrete alive state. -/
theorem run_background_overwrites_witness :
    is_running ⟨[(("x"), 7)], 8, [7], [7]⟩ ("x") = true ∧
    ((run_background ⟨[(("x"), 7)], 8, [7], [7]⟩ ("x")).2 = 8 ∧
     (run_background ⟨[(("x"), 7)], 8, [7], [7]⟩ ("x")).1.spawned = [7] ++ [8] ∧
     dictLookup (run_background ⟨[(("x"), 7)], 8, [7], [7]⟩ ("x")).1.registry ("x") =
       some 8) :=
  ⟨by decide, run_background_overwrites ⟨[(("x"), 7)], 8, [7], [7]⟩ ("x") (by decide)⟩

/-! ## C2: escalation order and the uncaught final wait -/

/-- C2 (code bug evidence): on a process that ignores the interrupt and
terminate signals, `terminate` does deliver exactly interrupt, terminate,
kill in order with wait bounds 5, 3, 2 — but when the final 2-second wait
after the kill signal does not confirm exit, the `subprocess.TimeoutExpired`
raised by `process.wait(timeout=2)` is NOT caught (process.py lines 223-228
catch only `ProcessLookupError`/`PermissionError`), so `terminate` raises
and the registry entry is NOT removed.  When the final wait does confirm
exit, the claimed behaviour (returns `True`, name removed) holds. -/
theorem terminate_kill_timeout_raises :
    terminate [(("srv"), ⟨false, false, false, false, false, false, false⟩)] ("srv") =
      (TermResult.timeoutExpired, [(Sig.int, 5), (Sig.term, 3), (Sig.kill, 2)],
       [(("srv"), ⟨false, false, false, false, false, false, false⟩)]) ∧
    terminate [(("srv"), ⟨false, false, false, false, false, false, true⟩)] ("srv") =
      (TermResult.ok true, [(Sig.int, 5), (Sig.term, 3), (Sig.kill, 2)], []) := by
  refine ⟨by decide, by decide⟩

/-! ## C8: idempotent terminate -/

/-- C8: whenever a `terminate` call returns normally (with any boolean),
an immediately following `terminate` on the same name returns `False`
("already gone"), delivers no signals, does not raise, and leaves the
registry unchanged. -/
theorem terminate_twice_second_false :
    ∀ (reg : List (String × ProcBehavior)) (name : String) (b : Bool)
      (tr : List (Sig × Nat)) (reg2 : List (String × ProcBehavior)),
      terminate reg name = (TermResult.ok b, tr, reg2) →
      terminate reg2 name = (TermResult.ok false, [], reg2) := by
  intro reg name b tr reg2 h
  have hnone : dictLookup reg2 name = none := by
    rcases hl : dictLookup reg name with _ | p
    · simp only [terminate, hl] at h
      injection h with h1 h23
      injection h23 with h2 h3
      subst h3
      exact hl
    · obtain ⟨pd, ir, ei, trm, et, kr, ek⟩ := p
      cases pd <;> cases ei <;> cases trm <;> cases et <;> cases kr <;> cases ek <;>
        simp only [terminate, killStage, hl, Bool.true_eq_false, Bool.false_eq_true,
          if_true, if_false, ite_true, ite_false] at h <;>
        (injection h with h1 h23; injection h23 with h2 h3) <;>
        first
          | exact TermResult.noConfusion h1
          | (subst h3; exact dictLookup_erase reg name)
  simp only [terminate, hnone]

/-- Witness for `terminate_twice_second_false`: first call on a process that
exits on the interrupt signal, second call on the resulting registry. -/
theorem terminate_twice_witness :
    terminate [(("a"), ⟨false, false, true, false, false, false, false⟩)] ("a") =
      (TermResult.ok true, [(Sig.int, 5)], ([] : List (String × ProcBehavior))) ∧
    terminate ([] : List (String × ProcBehavior)) ("a") =
      (TermResult.ok false, [], []) :=
  ⟨by decide,
   terminate_twice_second_false [(("a"), ⟨false, false, true, false, false, false, false⟩)]
     ("a") true [(Sig.int, 5)] [] (by decide)⟩

theorem splitChar_not_mem {sep : Char} {cs : List Char} (h : sep ∉ cs) :
    splitChar sep cs = [cs] := by
  induction cs with
  | nil => rfl
  | cons c rest ih =>
    have hc : ¬ c = sep := fun he => h (he ▸ List.mem_cons_self c rest)
    have hr : sep ∉ rest := fun hm => h (List.mem_cons_of_mem c hm)
    simp only [splitChar, if_neg hc, ih hr]

theorem splitChar_append {sep : Char} {a : List Char} (b : List Char) (h : sep ∉ a) :
    splitChar sep (a ++ sep :: b) = a :: splitChar sep b := by
  induction a with
  | nil => simp [splitChar]
  | cons c rest ih =>
    have hc : ¬ c = sep := fun he => h (he ▸ List.mem_cons_self c rest)
    have hr : sep ∉ rest := fun hm => h (List.mem_cons_of_mem c hm)
    simp only [List.cons_append, splitChar, if_neg hc]
    simp only [List.append_eq]
    rw [ih hr]

/-! ## C9: three-or-more-part variant entries -/

/-- C9: a variant entry splitting into parts `A`, `B`, `rest` (at least
three parts) whose middle part does not start with `env:` is parsed as
`(A, B ++ "::" ++ join(rest), "")`: the middle part is recombined into the
argument string with the `::` delimiter restored, the environment string is
empty, and no part is discarded.  The same triple is what `parse_variants`
yields for a spec consisting of that single entry. -/
theorem parse_variants_middle_recombined :
    ∀ (entry A B : List Char) (rest : List (List Char)),
      pyStrip entry = entry →
      splitColons [] entry = A :: B :: rest →
      rest ≠ [] →
      startsWithEnv B = false →
      parse_variant_entry entry =
        some (String.mk A, String.mk (B ++ ':' :: ':' :: joinColons rest), "") ∧
      (Not (';' ∈ entry) →
        parse_variants (String.mk entry) =
          [(String.mk A, String.mk (B ++ ':' :: ':' :: joinColons rest), "")]) := by
  intro entry A B rest h1 h2 h3 h4
  have hne : entry ≠ [] := by
    intro he
    subst he
    simp [splitColons] at h2
  obtain ⟨r0, rs, rfl⟩ := List.exists_cons_of_ne_nil h3
  have hP : parse_variant_entry entry =
      some (String.mk A, String.mk (B ++ ':' :: ':' :: joinColons (r0 :: rs)), "") := by
    simp only [parse_variant_entry, h1, if_neg hne, h2, h4, Bool.false_eq_true, if_false]
  refine ⟨hP, ?_⟩
  intro hsemi
  have hmkne : String.mk entry ≠ "" := fun hcontr => hne (congrArg String.data hcontr)
  simp only [parse_variants, if_neg hmkne]
  simp only [splitSemicolon, splitChar_not_mem hsemi]
  simp only [List.filterMap_cons, hP, List.filterMap_nil]

/-- Witness for `parse_variants_middle_recombined` on the entry
`"a::b::c"`. -/
theorem parse_variants_middle_witness :
    parse_variant_entry (("a::b::c").data) = some (("a"), ("b::c"), "") ∧
    parse_variants ("a::b::c") = [(("a"), ("b::c"), "")] :=
  have h := parse_variants_middle_recombined (("a::b::c").data) (("a").data)
    (("b").data) [(("c").data)] (by decide) (by decide) (by decide) (by decide)
  ⟨h.1.trans (by decide), (h.2 (by decide)).trans (by decide)⟩

theorem compute_gpu_count_pos (a b : Option Nat) : 1 ≤ compute_gpu_count a b := by
  have h1 : ∀ o : Option Nat,
      1 ≤ (match o with | none => 1 | some n => if n = 0 then 1 else n) := by
    intro o
    rcases o with _ | n
    · exact le_refl 1
    · dsimp only
      split_ifs with h
      · exact le_refl 1
      · omega
  simpa [compute_gpu_count] using Nat.mul_le_mul (h1 a) (h1 b)

/-! ## C5: resource count and reservation prefixing -/

/-- C5 counterexample: with `-tp 2` in the arguments the resource count is
2 (> 1), yet with the reservation wrapper unavailable the command launches
unprefixed (server.py lines 114-119 fall into the `chg not available`
branch), contradicting "prefixes ... whenever the count is greater than
one". -/
theorem build_command_unprefixed_cex :
    compute_gpu_count (extract_tp_dp_from_args ("-tp 2")).1
        (extract_tp_dp_from_args ("-tp 2")).2 = 2 ∧
    (build_command (fun s => [s]) false ("vllm") ("m") ("localhost") 8000
        ("-tp 2") "").1 =
      ["vllm", "serve", "m", "--host", "localhost", "--port", "8000", "-tp 2"] ∧
    ((build_command (fun s => [s]) false ("vllm") ("m") ("localhost") 8000
        ("-tp 2") "").1).head? ≠ some ("chg") := by
  refine ⟨by decide, by decide, by decide⟩

/-- C5 (amended): the resource count is the product of the parsed
tensor-parallel and data-parallel values with 1 substituted when a flag is
absent (or its value parses to 0, Python falsiness), and the command is
prefixed with the `chg` reservation invocation for that count exactly when
the wrapper is available — the count is always at least 1, so availability
alone decides; when the wrapper is unavailable the command launches
unprefixed even if the count exceeds one. -/
theorem build_command_chg_decision :
    ∀ (splitArgs : String → List String) (chgAvailable : Bool)
      (vllmCmd model host : String) (port : Nat) (args env_csv : String),
      (build_command splitArgs chgAvailable vllmCmd model host port args env_csv).1 =
        (if chgAvailable then
           ["chg", "run", "-g",
            toString (compute_gpu_count (extract_tp_dp_from_args args).1
              (extract_tp_dp_from_args args).2), "--"]
         else []) ++
        ([vllmCmd, "serve", model, "--host", host, "--port", toString port] ++
         (if args = "" then [] else splitArgs args)) ∧
      (∀ a b : Nat, compute_gpu_count (some a) (some b) =
        (if a = 0 then 1 else a) * (if b = 0 then 1 else b)) ∧
      compute_gpu_count none none = 1 ∧
      (∀ a : Nat, compute_gpu_count (some a) none = if a = 0 then 1 else a) ∧
      (∀ b : Nat, compute_gpu_count none (some b) = if b = 0 then 1 else b) := by
  intro splitArgs chgAvailable vllmCmd model host port args env_csv
  refine ⟨?_, fun a b => rfl, rfl,
    fun a => by simp [compute_gpu_count], fun b => by simp [compute_gpu_count]⟩
  have hpos : 1 ≤ compute_gpu_count (extract_tp_dp_from_args args).1
      (extract_tp_dp_from_args args).2 := compute_gpu_count_pos _ _
  simp only [build_command]
  cases chgAvailable with
  | true =>
    have hcond : compute_gpu_count (extract_tp_dp_from_args args).1
        (extract_tp_dp_from_args args).2 > 1 ∨
        (compute_gpu_count (extract_tp_dp_from_args args).1
          (extract_tp_dp_from_args args).2 = 1 ∧ (true : Bool) = true) := by
      rcases Nat.lt_or_ge 1 (compute_gpu_count (extract_tp_dp_from_args args).1
        (extract_tp_dp_from_args args).2) with h | h
      · exact Or.inl h
      · exact Or.inr ⟨by omega, rfl⟩
    rw [if_pos hcond]
    simp
  | false =>
    by_cases h1 : compute_gpu_count (extract_tp_dp_from_args args).1
        (extract_tp_dp_from_args args).2 > 1
    · rw [if_pos (Or.inl h1)]
      simp
    · rw [if_neg ?hneg]
      · simp
      case hneg =>
        rintro (h | ⟨-, h⟩)
        · exact h1 h
        · exact Bool.false_ne_true h

/-! ## Lemmas on stripping and splitting (for the environment CSV) -/

theorem dropWhile_append_not {p : Char → Bool} {c : Char} (hc : p c = false)
    (a b : List Char) :
    List.dropWhile p (a ++ c :: b) = List.dropWhile p a ++ c :: b := by
  induction a with
  | nil => simp [List.dropWhile_cons, hc]
  | cons x xs ih =>
    cases hx : p x with
    | true => simp only [List.cons_append, List.dropWhile_cons, hx, if_true, ih]
    | false =>
      simp only [List.cons_append, List.dropWhile_cons, hx, Bool.false_eq_true, if_false]

theorem dropWhile_append_of_ne_nil {p : Char → Bool} {a : List Char}
    (h : List.dropWhile p a ≠ []) (b : List Char) :
    List.dropWhile p (a ++ b) = List.dropWhile p a ++ b := by
  induction a with
  | nil => exact absurd rfl h
  | cons x xs ih =>
    cases hx : p x with
    | true =>
      simp only [List.dropWhile_cons, hx, if_true] at h
      simp only [List.cons_append, List.dropWhile_cons, hx, if_true, ih h]
    | false =>
      simp only [List.cons_append, List.dropWhile_cons, hx, Bool.false_eq_true, if_false]

theorem dropWhile_append_of_nil {p : Char → Bool} {a : List Char}
    (h : List.dropWhile p a = []) (b : List Char) :
    List.dropWhile p (a ++ b) = List.dropWhile p b := by
  induction a with
  | nil => rfl
  | cons x xs ih =>
    cases hx : p x with
    | true =>
      simp only [List.dropWhile_cons, hx, if_true] at h
      simp only [List.cons_append, List.dropWhile_cons, hx, if_true, ih h]
    | false =>
      simp only [List.dropWhile_cons, hx, Bool.false_eq_true, if_false] at h
      exact absurd h (by simp)

theorem dropTrailWs_cons_of_ne_nil {c : Char} {t : List Char}
    (h : dropTrailWs t ≠ []) : dropTrailWs (c :: t) = c :: dropTrailWs t := by
  have hrev : List.dropWhile isWsChar t.reverse ≠ [] := by
    intro he
    exact h (by simp [dropTrailWs, he])
  simp only [dropTrailWs, List.reverse_cons]
  rw [dropWhile_append_of_ne_nil hrev]
  simp

theorem dropTrailWs_cons_not_ws {c : Char} (hc : isWsChar c = false) (t : List Char) :
    dropTrailWs (c :: t) = c :: dropTrailWs t := by
  simp only [dropTrailWs, List.reverse_cons]
  rw [dropWhile_append_not hc]
  simp

theorem dropTrailWs_cons_ws_nil {c : Char} {t : List Char}
    (hc : isWsChar c = true) (ht : dropTrailWs t = []) :
    dropTrailWs (c :: t) = [] := by
  have hrev : List.dropWhile isWsChar t.reverse = [] := by
    have := congrArg List.reverse ht
    simpa [dropTrailWs] using this
  simp only [dropTrailWs, List.reverse_cons]
  rw [dropWhile_append_of_nil hrev]
  simp [List.dropWhile_cons, hc]

theorem dropTrailWs_append {c : Char} (hc : isWsChar c = false) (x v : List Char) :
    dropTrailWs (x ++ c :: v) = x ++ c :: dropTrailWs v := by
  simp only [dropTrailWs]
  rw [show (x ++ c :: v).reverse = v.reverse ++ c :: x.reverse from by simp]
  rw [dropWhile_append_not hc]
  simp [dropTrailWs]

theorem pyStrip_append {c : Char} (hc : isWsChar c = false) (k v : List Char) :
    pyStrip (k ++ c :: v) = dropLeadWs k ++ c :: dropTrailWs v := by
  simp only [pyStrip, dropLeadWs]
  rw [dropWhile_append_not hc]
  exact dropTrailWs_append hc _ v

theorem dropLeadWs_dropTrailWs_comm (l : List Char) :
    dropLeadWs (dropTrailWs l) = dropTrailWs (dropLeadWs l) := by
  induction l with
  | nil => rfl
  | cons c t ih =>
    cases hc : isWsChar c with
    | false =>
      have h1 : dropTrailWs (c :: t) = c :: dropTrailWs t := dropTrailWs_cons_not_ws hc t
      have h2 : dropLeadWs (c :: t) = c :: t := by
        simp [dropLeadWs, List.dropWhile_cons, hc]
      have h3 : dropLeadWs (c :: dropTrailWs t) = c :: dropTrailWs t := by
        simp [dropLeadWs, List.dropWhile_cons, hc]
      rw [h1, h3, h2, h1]
    | true =>
      have h2 : dropLeadWs (c :: t) = dropLeadWs t := by
        simp [dropLeadWs, List.dropWhile_cons, hc]
      by_cases ht : dropTrailWs t = []
      · have h1 : dropTrailWs (c :: t) = [] := dropTrailWs_cons_ws_nil hc ht
        rw [h1, h2, ← ih, ht]
      · have h1 : dropTrailWs (c :: t) = c :: dropTrailWs t := dropTrailWs_cons_of_ne_nil ht
        have h3 : dropLeadWs (c :: dropTrailWs t) = dropLeadWs (dropTrailWs t) := by
          simp [dropLeadWs, List.dropWhile_cons, hc]
        rw [h1, h3, ih, h2]

theorem pyStrip_dropLeadWs (k : List Char) : pyStrip (dropLeadWs k) = pyStrip k := by
  simp only [pyStrip, dropLeadWs, List.dropWhile_idempotent]

theorem dropTrailWs_idem (l : List Char) : dropTrailWs (dropTrailWs l) = dropTrailWs l := by
  simp only [dropTrailWs, List.reverse_reverse, List.dropWhile_idempotent]

theorem pyStrip_dropTrailWs (v : List Char) : pyStrip (dropTrailWs v) = pyStrip v := by
  simp only [pyStrip]
  rw [dropLeadWs_dropTrailWs_comm v, dropTrailWs_idem]

theorem pyBreakEq_eq_none {cs : List Char} (h : '=' ∉ cs) : pyBreakEq cs = none := by
  induction cs with
  | nil => rfl
  | cons c rest ih =>
    have hc : ¬ c = '=' := fun he => h (he ▸ List.mem_cons_self c rest)
    have hr : '=' ∉ rest := fun hm => h (List.mem_cons_of_mem c hm)
    simp only [pyBreakEq, if_neg hc, ih hr]

theorem pyBreakEq_append {k : List Char} (v : List Char) (h : '=' ∉ k) :
    pyBreakEq (k ++ '=' :: v) = some (k, v) := by
  induction k with
  | nil => simp [pyBreakEq]
  | cons c rest ih =>
    have hc : ¬ c = '=' := fun he => h (he ▸ List.mem_cons_self c rest)
    have hr : '=' ∉ rest := fun hm => h (List.mem_cons_of_mem c hm)
    simp only [List.cons_append, pyBreakEq, if_neg hc]
    simp only [List.append_eq]
    rw [ih hr]

theorem not_mem_dropLeadWs {c : Char} {k : List Char} (h : c ∉ k) :
    c ∉ dropLeadWs k := by
  intro hm
  exact h (List.IsSuffix.subset (List.dropWhile_suffix isWsChar) hm)

theorem not_mem_pyStrip {c : Char} {s : List Char} (h : c ∉ s) : c ∉ pyStrip s := by
  intro hm
  apply h
  have h1 : pyStrip s ⊆ dropLeadWs s := by
    intro x hx
    simp only [pyStrip, dropTrailWs] at hx
    rw [List.mem_reverse] at hx
    have := List.IsSuffix.subset (List.dropWhile_suffix isWsChar) hx
    rw [List.mem_reverse] at this
    exact this
  exact List.IsSuffix.subset (List.dropWhile_suffix isWsChar) (h1 hm)

theorem splitChar_joinChar {sep : Char} :
    ∀ {segs : List (List Char)}, segs ≠ [] → (∀ s ∈ segs, sep ∉ s) →
      splitChar sep (joinChar sep segs) = segs := by
  intro segs
  induction segs with
  | nil => intro h; exact absurd rfl h
  | cons s rest ih =>
    intro _ hmem
    cases rest with
    | nil =>
      simp only [joinChar]
      exact splitChar_not_mem (hmem s (List.mem_cons_self s []))
    | cons s2 rest2 =>
      have hjoin : joinChar sep (s :: s2 :: rest2) = s ++ sep :: joinChar sep (s2 :: rest2) := rfl
      rw [hjoin, splitChar_append _ (hmem s (List.mem_cons_self s _))]
      rw [ih (by simp) (fun x hx => hmem x (List.mem_cons_of_mem s hx))]

theorem processSeg_no_eq {seg : List Char} (h : '=' ∉ seg) : processSeg seg = none := by
  simp only [processSeg, pyBreakEq_eq_none (not_mem_pyStrip h)]

theorem parseEnvSegs_skip (acc : List (String × String)) (segs1 segs2 : List (List Char))
    {seg : List Char} (h : '=' ∉ seg) :
    parseEnvSegs acc (segs1 ++ seg :: segs2) = parseEnvSegs acc (segs1 ++ segs2) := by
  induction segs1 generalizing acc with
  | nil =>
    simp only [List.nil_append, parseEnvSegs, processSeg_no_eq h]
  | cons s ss ih =>
    simp only [List.cons_append, parseEnvSegs]
    cases hps : processSeg s with
    | none => exact ih acc
    | some kv => exact ih (dictInsert acc kv.1 kv.2)

/-! ## C10: environment-override CSV parsing -/

/-- C10: each CSV segment with no `'='` is silently skipped; a segment
`k ++ "=" ++ v` with no `'='` in `k` is split only at that first `'='` (so
`v` may itself contain `'='`) and contributes the pair of the stripped key
and the stripped value; and for comma-free segments, parsing the
comma-joined CSV is exactly the fold over those segments. -/
theorem parse_env_csv_segment_rules :
    (∀ (acc : List (String × String)) (segs1 segs2 : List (List Char)) (seg : List Char),
       ('=' ∉ seg) →
       parseEnvSegs acc (segs1 ++ seg :: segs2) = parseEnvSegs acc (segs1 ++ segs2)) ∧
    (∀ (k v : List Char), ('=' ∉ k) →
       processSeg (k ++ '=' :: v) =
         some (String.mk (pyStrip k), String.mk (pyStrip v))) ∧
    (∀ segs : List (List Char), (∀ s ∈ segs, (',' ∉ s)) →
       parse_env_csv (String.mk (joinComma segs)) = parseEnvSegs [] segs) := by
  refine ⟨fun acc segs1 segs2 seg h => parseEnvSegs_skip acc segs1 segs2 h, ?_, ?_⟩
  · intro k v h
    have hstrip : pyStrip (k ++ '=' :: v) = dropLeadWs k ++ '=' :: dropTrailWs v :=
      pyStrip_append (by decide) k v
    simp only [processSeg, hstrip,
      pyBreakEq_append (dropTrailWs v) (not_mem_dropLeadWs h)]
    rw [pyStrip_dropLeadWs, pyStrip_dropTrailWs]
  · intro segs hmem
    by_cases hempty : joinComma segs = []
    · have hmk : String.mk (joinComma segs) = "" := by rw [hempty]
      rw [hmk]
      have hsegs : segs = [] ∨ segs = [[]] := by
        cases segs with
        | nil => exact Or.inl rfl
        | cons s rest =>
          cases rest with
          | nil =>
            simp only [joinComma, joinChar] at hempty
            exact Or.inr (by rw [hempty])
          | cons s2 rest2 =>
            exfalso
            have : joinComma (s :: s2 :: rest2) = s ++ ',' :: joinChar ',' (s2 :: rest2) := rfl
            rw [this] at hempty
            exact List.cons_ne_nil _ _ (List.append_eq_nil.mp hempty).2
      rcases hsegs with rfl | rfl
      · rfl
      · rfl
    · have hmkne : String.mk (joinComma segs) ≠ "" := by
        intro hcontr
        exact hempty (congrArg String.data hcontr)
      have hsegsne : segs ≠ [] := by
        rintro rfl
        exact hempty rfl
      simp only [parse_env_csv, if_neg hmkne]
      simp only [splitComma, joinComma]
      rw [splitChar_joinChar hsegsne hmem]

/-- Witness for `parse_env_csv_segment_rules` on concrete segments. -/
theorem parse_env_csv_segment_rules_witness :
    (parseEnvSegs [] [("a=1").data, ("junk").data] = parseEnvSegs [] [("a=1").data] ∧
     parseEnvSegs [] [("a=1").data] = [(("a"), ("1"))]) ∧
    processSeg ((" K ").data ++ '=' :: (" a=b ").data) = some (("K"), ("a=b")) ∧
    parse_env_csv (String.mk (joinComma [("x=1").data, ("noeq").data])) =
      [(("x"), ("1"))] := by
  refine ⟨⟨?_, by decide⟩, ?_, ?_⟩
  · exact parse_env_csv_segment_rules.1 [] [("a=1").data] [] (("junk").data) (by decide)
  · exact (parse_env_csv_segment_rules.2.1 ((" K ").data) ((" a=b ").data)
      (by decide)).trans (by decide)
  · exact (parse_env_csv_segment_rules.2.2 [("x=1").data, ("noeq").data]
      (by decide)).trans (by decide)

/-! ## Lemmas on the `wait_for_ready` polling loop -/

theorem wfrGo_benign_step (m : String → String → Bool) (env : Nat → Obs)
    (st r k lc : Nat)
    (ha : (env k).alive = true) (hh : (env k).health = false)
    (hm2 : (env k).models = false)
    (hs : search_file_for_patterns m ERROR_PATTERNS ((env k).file) 0 = none) :
    wfrGo m true env st (r + 1) k lc =
      wfrGo m true env st r (k + 1) (if 2 ≤ st + k - lc then st + k else lc) := by
  by_cases h2 : 2 ≤ st + k - lc
  · simp [wfrGo, ha, hh, hm2, hs, h2]
  · simp [wfrGo, ha, hh, hm2, hs, h2]

theorem wfrGo_benign_steps (m : String → String → Bool) (env : Nat → Obs) (st : Nat) :
    ∀ (t r k lc : Nat),
      (∀ j, j < t → (env (k + j)).alive = true ∧ (env (k + j)).health = false ∧
        (env (k + j)).models = false ∧
        search_file_for_patterns m ERROR_PATTERNS ((env (k + j)).file) 0 = none) →
      wfrGo m true env st (t + r) k lc = wfrGo m true env st r (k + t) (lcAfter st t k lc) := by
  intro t
  induction t with
  | zero =>
    intro r k lc _
    simp [lcAfter]
  | succ t ih =>
    intro r k lc h
    have h0 := h 0 (by omega)
    simp only [Nat.add_zero] at h0
    have e1 : t + 1 + r = (t + r) + 1 := by omega
    rw [e1]
    rw [wfrGo_benign_step m env st (t + r) k lc h0.1 h0.2.1 h0.2.2.1 h0.2.2.2]
    have h2 : ∀ j, j < t → (env (k + 1 + j)).alive = true ∧
        (env (k + 1 + j)).health = false ∧ (env (k + 1 + j)).models = false ∧
        search_file_for_patterns m ERROR_PATTERNS ((env (k + 1 + j)).file) 0 = none := by
      intro j hj
      have e2 : k + 1 + j = k + (j + 1) := by omega
      rw [e2]
      exact h (j + 1) (by omega)
    rw [ih r (k + 1) (if 2 ≤ st + k - lc then st + k else lc) h2]
    have e3 : k + 1 + t = k + (t + 1) := by omega
    rw [e3]
    rfl

theorem lcAfter_succ (st : Nat) : ∀ (t k lc : Nat),
    lcAfter st (t + 1) k lc =
      (if 2 ≤ st + (k + t) - lcAfter st t k lc then st + (k + t)
       else lcAfter st t k lc) := by
  intro t
  induction t with
  | zero =>
    intro k lc
    simp [lcAfter]
  | succ t ih =>
    intro k lc
    have e1 : lcAfter st (t + 1 + 1) k lc =
        lcAfter st (t + 1) (k + 1) (if 2 ≤ st + k - lc then st + k else lc) := rfl
    have e2 : lcAfter st (t + 1) k lc =
        lcAfter st t (k + 1) (if 2 ≤ st + k - lc then st + k else lc) := rfl
    rw [e1, ih (k + 1) (if 2 ≤ st + k - lc then st + k else lc), e2]
    have e3 : k + 1 + t = k + (t + 1) := by omega
    rw [e3]

theorem lcAfter_eq_lcSeq (st : Nat) : ∀ t, lcAfter st t 0 0 = lcSeq st t := by
  intro t
  induction t with
  | zero => rfl
  | succ t ih =>
    rw [lcAfter_succ st t 0 0]
    simp only [Nat.zero_add]
    rw [ih]
    rfl

theorem lcSeq_closed (st : Nat) (hst : 2 ≤ st) : ∀ t, lcSeq st (t + 1) = st + (t - t % 2) := by
  intro t
  induction t with
  | zero =>
    simp only [lcSeq]
    split_ifs with h <;> omega
  | succ t ih =>
    have e : lcSeq st (t + 1 + 1) =
        if 2 ≤ st + (t + 1) - lcSeq st (t + 1) then st + (t + 1) else lcSeq st (t + 1) := rfl
    rw [e, ih]
    split_ifs with h <;> omega

theorem lcSeq_fire (st : Nat) (hst : 2 ≤ st) (t : Nat) (ht : t % 2 = 0) :
    2 ≤ st + t - lcSeq st t := by
  cases t with
  | zero =>
    simp only [lcSeq]
    omega
  | succ t =>
    rw [lcSeq_closed st hst t]
    omega

/-! ## C4: timeout without readiness gives a plain "not ready" -/

/-- C4: while the process stays alive, no fatal pattern is found in the log,
and neither endpoint ever returns success, `wait_for_ready` runs the full
budget of `timeout` poll ticks and returns the non-exceptional `notReady`
outcome (the plain `False` return, not a raise). -/
theorem wait_for_ready_timeout_not_ready :
    ∀ (m : String → String → Bool) (env : Nat → Obs) (st timeout : Nat),
      (∀ j, j < timeout → (env j).alive = true ∧ (env j).health = false ∧
        (env j).models = false ∧
        search_file_for_patterns m ERROR_PATTERNS ((env j).file) 0 = none) →
      wait_for_ready m true env st timeout = (ReadyOutcome.notReady, timeout) := by
  intro m env st timeout h
  have hsteps := wfrGo_benign_steps m env st timeout 0 0 0
    (fun j hj => by simpa using h j hj)
  simp only [Nat.add_zero, Nat.zero_add] at hsteps
  simp only [wait_for_ready]
  rw [hsteps]
  rfl

/-- Witness for `wait_for_ready_timeout_not_ready`: a one-second budget with
an alive process, an empty log, and endpoints that never answer. -/
theorem wait_for_ready_timeout_not_ready_witness :
    wait_for_ready (fun _ _ => false) true (fun _ => ⟨true, some (""), false, false⟩) 2 1 =
      (ReadyOutcome.notReady, 1) :=
  wait_for_ready_timeout_not_ready (fun _ _ => false)
    (fun _ => ⟨true, some (""), false, false⟩) 2 1
    (fun _ _ => ⟨rfl, rfl, rfl, rfl⟩)

/-! ## C3: detected-fatal conditions abort immediately -/

/-- C3: if after `t` benign poll ticks (`t` within the budget) the server
process is found dead, `wait_for_ready` returns the process-died error at
tick `t` with the last-100-lines log tail attached; and if at a tick `t`
where the throttled scan runs (even `t`; the scan runs every 2 seconds
against every-second polling) a fatal pattern matches, it returns the
fatal-pattern error at tick `t` carrying the matched pattern, the matching
line, and the log tail.  In both cases the remaining `timeout - t` budget is
skipped and nothing is retried. -/
theorem wait_for_ready_detected_fatal :
    (∀ (m : String → String → Bool) (env : Nat → Obs) (st timeout t : Nat),
       t < timeout →
       (∀ j, j < t → (env j).alive = true ∧ (env j).health = false ∧
         (env j).models = false ∧
         search_file_for_patterns m ERROR_PATTERNS ((env j).file) 0 = none) →
       (env t).alive = false →
       wait_for_ready m true env st timeout =
         (ReadyOutcome.died (some (tail_file ((env t).file) 100)), t)) ∧
    (∀ (m : String → String → Bool) (env : Nat → Obs) (st timeout t : Nat)
       (p l : String),
       2 ≤ st → t < timeout → t % 2 = 0 →
       (∀ j, j < t → (env j).alive = true ∧ (env j).health = false ∧
         (env j).models = false ∧
         search_file_for_patterns m ERROR_PATTERNS ((env j).file) 0 = none) →
       (env t).alive = true →
       search_file_for_patterns m ERROR_PATTERNS ((env t).file) 0 = some (p, l) →
       wait_for_ready m true env st timeout =
         (ReadyOutcome.fatal p l (tail_file ((env t).file) 100), t)) := by
  constructor
  · intro m env st timeout t ht hben hdead
    obtain ⟨s, rfl⟩ : ∃ s, timeout = t + (s + 1) := ⟨timeout - t - 1, by omega⟩
    have hsteps := wfrGo_benign_steps m env st t (s + 1) 0 0
      (fun j hj => by simpa using hben j hj)
    simp only [Nat.zero_add] at hsteps
    simp only [wait_for_ready]
    rw [hsteps]
    simp [wfrGo, hdead]
  · intro m env st timeout t p l hst ht hpar hben halive hsearch
    obtain ⟨s, rfl⟩ : ∃ s, timeout = t + (s + 1) := ⟨timeout - t - 1, by omega⟩
    have hsteps := wfrGo_benign_steps m env st t (s + 1) 0 0
      (fun j hj => by simpa using hben j hj)
    simp only [Nat.zero_add] at hsteps
    have hfire : 2 ≤ st + t - lcAfter st t 0 0 := by
      rw [lcAfter_eq_lcSeq]
      exact lcSeq_fire st hst t hpar
    simp only [wait_for_ready]
    rw [hsteps]
    simp [wfrGo, halive, hfire, hsearch]

/-- Witness for `wait_for_ready_detected_fatal`: a process dead at tick 0,
and a fatal `AssertionError` line present at tick 0 (with a matcher under
which every pattern matches, so the first configured pattern is reported). -/
theorem wait_for_ready_detected_fatal_witness :
    wait_for_ready (fun _ _ => false) true
        (fun _ => ⟨false, some ("boom\n"), false, false⟩) 2 3 =
      (ReadyOutcome.died (some ("boom\n")), 0) ∧
    wait_for_ready (fun _ _ => true) true
        (fun _ => ⟨true, some ("AssertionError\n"), false, false⟩) 2 3 =
      (ReadyOutcome.fatal ("AssertionError") ("AssertionError") ("AssertionError\n"), 0) :=
  ⟨(wait_for_ready_detected_fatal.1 (fun _ _ => false)
      (fun _ => ⟨false, some ("boom\n"), false, false⟩) 2 3 0 (by omega)
      (fun j hj => absurd hj (Nat.not_lt_zero j)) rfl).trans (by decide),
   (wait_for_ready_detected_fatal.2 (fun _ _ => true)
      (fun _ => ⟨true, some ("AssertionError\n"), false, false⟩) 2 3 0
      ("AssertionError") ("AssertionError") (by omega) (by omega) rfl
      (fun j hj => absurd hj (Nat.not_lt_zero j)) rfl (by decide)).trans (by decide)⟩

end VTI
